import Mathlib

/-!
Verification development for the audio-visual speech-enhancement data
pipeline (src/data_processor.py).

The Python source is shallowly embedded below.  Waveform samples are
rationals, sample rates are naturals, frame rates and millisecond
durations are rationals.  External collaborators (face detection,
librosa's STFT magnitude entries, amplitude-to-dB, the mel converter and
the noise-amplification factor) are oracles passed as explicit function
parameters: the pipeline uses only their shape behaviour, which is the
part fixed by the spec's interface contracts.  Fallible steps (Python
exceptions) are modelled with `Option`, `none` marking a raised
exception.
-/

set_option autoImplicit false

namespace AVSE

/-- Python `int()` applied to a rational: truncation toward zero.  This is
the conversion the source applies to every float-valued derived
parameter. -/
def pyInt (q : ℚ) : ℤ := if 0 ≤ q then ⌊q⌋ else -⌊-q⌋

/-- A grayscale image (for instance a mouth crop): pixel values indexed by
row and column.  Produced by the external face detector. -/
def Frame : Type := ℕ → ℕ → ℚ

/-- A two-dimensional array of spectrogram values: dimensions plus an
entry function (frequency bin, time frame). -/
structure Mat where
  rows : ℕ
  cols : ℕ
  entry : ℕ → ℕ → ℚ

/-- An in-memory waveform: ordered samples plus a sample rate, the
`mediaio.AudioSignal` interface of the spec. -/
structure AudioSignal where
  data : List ℚ
  sampleRate : ℕ

/-- A decoded video: the ordered frames plus the frame rate, the
`VideoFileReader` interface of the spec (frame count is the list
length). -/
structure VideoInput where
  frames : List Frame
  frameRate : ℚ

/-- Source line 23: `frames_per_slice = int((float(slice_duration_ms) / 1000) * reader.get_frame_rate())`. -/
def frames_per_slice (slice_duration_ms frame_rate : ℚ) : ℕ :=
  (pyInt (slice_duration_ms / 1000 * frame_rate)).toNat

/-- Source line 35: `samples_per_slice = int((float(slice_duration_ms) / 1000) * audio_signal.get_sample_rate())`. -/
def samples_per_slice (slice_duration_ms : ℚ) (sample_rate : ℕ) : ℕ :=
  (pyInt (slice_duration_ms / 1000 * (sample_rate : ℚ))).toNat

/-- Source line 43: `n_fft = int(float(audio_signal.get_sample_rate()) / video_frame_rate)`. -/
def n_fft_of (sample_rate : ℕ) (video_frame_rate : ℚ) : ℕ :=
  (pyInt ((sample_rate : ℚ) / video_frame_rate)).toNat

/-- Source line 44: `hop_length = int(n_fft / 4)` (integer division on a
natural number). -/
def hop_length_of (n_fft : ℕ) : ℕ := n_fft / 4

/-- Embedding of `preprocess_video_sample` (source lines 11-31).  The
mouth cropping per frame is performed by the external `FaceDetector`,
passed as the oracle `crop`.  The `fps = 0` guard models Python's
`ZeroDivisionError` in `n_slices = int(float(frame_count) / frames_per_slice)`
and the `n_slices = 0` guard models `np.stack([])` raising `ValueError`. -/
def preprocess_video_sample (crop : Frame → Frame) (video : VideoInput)
    (slice_duration_ms : ℚ) : Option (List (List Frame) × ℚ) :=
  let mouth_cropped_frames := video.frames.map crop
  let fps := frames_per_slice slice_duration_ms video.frameRate
  if fps = 0 then none else
  let n_slices := mouth_cropped_frames.length / fps
  if n_slices = 0 then none else
  some (((List.range n_slices).map fun i =>
    (mouth_cropped_frames.drop (i * fps)).take fps), video.frameRate)

/-- Modelled from the spec: `pad_with_zeros` of the `AudioSignal`
interface appends trailing zero samples up to the requested length and
keeps the sample rate. -/
def pad_with_zeros (s : AudioSignal) (n : ℕ) : AudioSignal :=
  ⟨s.data ++ List.replicate (n - s.data.length) 0, s.sampleRate⟩

/-- Modelled from the spec: `truncate` of the `AudioSignal` interface
keeps the first `n` samples and the sample rate. -/
def truncate (s : AudioSignal) (n : ℕ) : AudioSignal :=
  ⟨s.data.take n, s.sampleRate⟩

/-- The length-forcing step of `preprocess_audio_signal` (source lines
38-41): pad with trailing zeros when shorter than the target, truncate
otherwise. -/
def force_signal_length (s : AudioSignal) (target : ℕ) : AudioSignal :=
  if s.data.length < target then pad_with_zeros s target else truncate s target

/-- Modelled from the spec: the magnitude part of `librosa.stft` with
centering, as used on source line 50.  The shape is fixed by the library
interface: `1 + n_fft/2` frequency bins and `1 + len/hop` time frames;
the magnitude values themselves are given by the external oracle
`stftEntry`. -/
def stft_mag (stftEntry : List ℚ → ℕ → ℕ → ℕ → ℕ → ℚ)
    (data : List ℚ) (n_fft hop : ℕ) : Mat :=
  ⟨n_fft / 2 + 1, data.length / hop + 1, stftEntry data n_fft hop⟩

/-- Modelled from the spec: `librosa.amplitude_to_db` (source line 51) is
shape-preserving; its numeric effect on the entries is the external
oracle `dbEntry`. -/
def amplitude_to_db (dbEntry : Mat → ℕ → ℕ → ℚ) (m : Mat) : Mat :=
  ⟨m.rows, m.cols, dbEntry m⟩

/-- Source lines 52-53: drop the last frequency bin when the bin count is
odd. -/
def trim_odd_row (m : Mat) : Mat :=
  if m.rows % 2 ≠ 0 then ⟨m.rows - 1, m.cols, m.entry⟩ else m

/-- Modelled from the spec: `MelConverter.signal_to_mel_spectrogram`
(source lines 47-48) produces 80 mel bands over the same time framing as
the underlying STFT; entries are the external oracle `melEntry`. -/
def mel_spectrogram (melEntry : List ℚ → ℕ → ℕ → ℕ → ℕ → ℚ)
    (data : List ℚ) (n_fft hop : ℕ) : Mat :=
  ⟨80, data.length / hop + 1, melEntry data n_fft hop⟩

/-- One spectrogram slice (source lines 58-61): columns
`i * spsps .. (i+1) * spsps` of the spectrogram. -/
def spectrogram_slice (m : Mat) (spsps i : ℕ) : Mat :=
  ⟨m.rows, spsps, fun r c => m.entry r (i * spsps + c)⟩

/-- Embedding of `preprocess_audio_signal` (source lines 34-63).  The
`hop = 0` and `spsps = 0` guards model Python's `ZeroDivisionError` in
the corresponding integer divisions, and the `n_slices = 0` guard models
`np.stack([])` raising `ValueError`.  In the source `mel` defaults to
`True`; the flag is explicit here. -/
def preprocess_audio_signal (stftEntry melEntry : List ℚ → ℕ → ℕ → ℕ → ℕ → ℚ)
    (dbEntry : Mat → ℕ → ℕ → ℚ) (audio_signal : AudioSignal)
    (slice_duration_ms : ℚ) (n_video_slices : ℕ) (video_frame_rate : ℚ)
    (mel : Bool) : Option (List Mat) :=
  let sps := samples_per_slice slice_duration_ms audio_signal.sampleRate
  let signal_length := sps * n_video_slices
  let forced := force_signal_length audio_signal signal_length
  let n_fft := n_fft_of forced.sampleRate video_frame_rate
  let hop := hop_length_of n_fft
  if hop = 0 then none else
  let spectrogram :=
    if mel then mel_spectrogram melEntry forced.data n_fft hop
    else trim_odd_row (amplitude_to_db dbEntry (stft_mag stftEntry forced.data n_fft hop))
  let spsps := sps / hop
  if spsps = 0 then none else
  let n_slices := spectrogram.cols / spsps
  if n_slices = 0 then none else
  some ((List.range n_slices).map (spectrogram_slice spectrogram spsps))

/-- The number of slices `preprocess_audio_signal` produces on success,
as a function of the sample rate and the slicing parameters alone. -/
def audio_slice_count (sample_rate : ℕ) (slice_duration_ms : ℚ)
    (n_video_slices : ℕ) (video_frame_rate : ℚ) : ℕ :=
  let sps := samples_per_slice slice_duration_ms sample_rate
  let hop := hop_length_of (n_fft_of sample_rate video_frame_rate)
  (sps * n_video_slices / hop + 1) / (sps / hop)

/-- The post-trim row count of the linear magnitude-in-dB spectrogram, as
a function of the sample rate and the video frame rate alone. -/
def linear_spectrogram_rows (sample_rate : ℕ) (video_frame_rate : ℚ) : ℕ :=
  let r := n_fft_of sample_rate video_frame_rate / 2 + 1
  if r % 2 ≠ 0 then r - 1 else r

/-- One iteration budget per doubling of the noise-extension loop of
`preprocess_audio_pair` (source lines 88-89):
`while noise.samples < speech.samples: noise = concat([noise, noise])`.
`AudioSignal.concat` is modelled from the spec as concatenation of the
sample lists.  When the fuel runs out the loop has not exited, which for
a non-empty noise never happens with fuel `target + 1` (each doubling
strictly increases the length); for a zero-length noise the loop body
makes no progress, so every fuel budget is exhausted. -/
def extend_noise_fuel : ℕ → List ℚ → ℕ → Option (List ℚ)
  | 0, _, _ => none
  | fuel + 1, noise, target =>
    if noise.length < target then extend_noise_fuel fuel (noise ++ noise) target
    else some noise

/-- The noise-extension loop with the always-sufficient fuel budget
`target + 1`.  On a non-empty noise this is exactly the source loop; the
`none` result occurs exactly for a zero-length noise shorter than the
target, where the source loop never terminates. -/
def extend_noise (noise : List ℚ) (target : ℕ) : Option (List ℚ) :=
  extend_noise_fuel (target + 1) noise target

/-- Concatenation of `k` copies of a list: the tiled (periodic) extension
used to state what the noise-extension loop produces. -/
def repeatList (l : List ℚ) (k : ℕ) : List ℚ := (List.replicate k l).flatten

/-- Modelled from the spec: `AudioMixer.mix` with `mixing_weights=[1, 1]`
(source line 94) is sample-rate-aware additive mixing — it requires the
two signals to share a sample rate and adds them samplewise. -/
def mix_signals (a b : AudioSignal) : Option AudioSignal :=
  if a.sampleRate = b.sampleRate then
    some ⟨List.zipWith (fun x y => x + y) a.data b.data, a.sampleRate⟩
  else none

/-- Modelled from the spec: `noise_signal.amplify(speech_signal)` (source
line 93) scales the noise amplitude relative to the speech; the spec
leaves the scaling metric open, so the factor is the external oracle
`ampFactor`.  Amplitude scaling preserves length and sample rate. -/
def amplify (ampFactor : AudioSignal → AudioSignal → ℚ)
    (noise speech : AudioSignal) : AudioSignal :=
  ⟨noise.data.map (fun x => ampFactor noise speech * x), noise.sampleRate⟩

/-- Modelled from the spec: the peak recorded by `peak_normalize()` is the
maximum absolute sample of the signal. -/
def peakOf (s : AudioSignal) : ℚ :=
  (s.data.map (fun x => |x|)).foldr max 0

/-- Modelled from the spec: `peak_normalize(peak)` divides every sample by
the given peak and keeps the sample rate. -/
def peak_normalize (s : AudioSignal) (peak : ℚ) : AudioSignal :=
  ⟨s.data.map (fun x => x / peak), s.sampleRate⟩

/-- The result bundle of `preprocess_audio_pair` (source line 104). -/
structure AudioPairResult where
  mixed_spectrograms : List Mat
  speech_spectrograms : List Mat
  noise_spectrograms : List Mat
  original_mixed : AudioSignal
  peak : ℚ

/-- Embedding of `preprocess_audio_pair` (source lines 82-104) on already
loaded waveforms (`AudioSignal.from_wav_file` is external I/O).  The
`original_mixed` copy (source line 96) is taken before peak
normalization, per the spec's retained-copy contract.  In the source
`mel` defaults to `True`; the flag is explicit here. -/
def preprocess_audio_pair (stftEntry melEntry : List ℚ → ℕ → ℕ → ℕ → ℕ → ℚ)
    (dbEntry : Mat → ℕ → ℕ → ℚ) (ampFactor : AudioSignal → AudioSignal → ℚ)
    (speech_signal noise_signal : AudioSignal) (slice_duration_ms : ℚ)
    (n_video_slices : ℕ) (video_frame_rate : ℚ) (mel : Bool) :
    Option AudioPairResult :=
  match extend_noise noise_signal.data speech_signal.data.length with
  | none => none
  | some extended =>
    let noise_extended := truncate ⟨extended, noise_signal.sampleRate⟩
      speech_signal.data.length
    let noise_amplified := amplify ampFactor noise_extended speech_signal
    match mix_signals speech_signal noise_amplified with
    | none => none
    | some mixed_signal =>
      let original_mixed : AudioSignal := ⟨mixed_signal.data, mixed_signal.sampleRate⟩
      let peak := peakOf mixed_signal
      let mixed_normalized := peak_normalize mixed_signal peak
      let speech_normalized := peak_normalize speech_signal peak
      match preprocess_audio_signal stftEntry melEntry dbEntry speech_normalized
              slice_duration_ms n_video_slices video_frame_rate mel,
            preprocess_audio_signal stftEntry melEntry dbEntry noise_amplified
              slice_duration_ms n_video_slices video_frame_rate mel,
            preprocess_audio_signal stftEntry melEntry dbEntry mixed_normalized
              slice_duration_ms n_video_slices video_frame_rate mel with
      | some speech_spectrograms, some noise_spectrograms, some mixed_spectrograms =>
        some ⟨mixed_spectrograms, speech_spectrograms, noise_spectrograms,
              original_mixed, peak⟩
      | _, _, _ => none

/-- The result bundle of `preprocess_sample` (source lines 117-125). -/
structure SampleResult where
  video_samples : List (List Frame)
  mixed_spectrograms : List Mat
  speech_spectrograms : List Mat
  noise_spectrograms : List Mat
  mixed_signal : AudioSignal
  peak : ℚ
  video_frame_rate : ℚ

/-- Embedding of `preprocess_sample` (source lines 107-125): run the video
slicer, run the audio pair mixer with `mel=False` (overriding the
source's `mel=True` default) and the video slice count and frame rate,
then truncate all four streams to the minimum of the video and mixed
slice counts. -/
def preprocess_sample (crop : Frame → Frame)
    (stftEntry melEntry : List ℚ → ℕ → ℕ → ℕ → ℕ → ℚ)
    (dbEntry : Mat → ℕ → ℕ → ℚ) (ampFactor : AudioSignal → AudioSignal → ℚ)
    (video : VideoInput) (speech noise : AudioSignal)
    (slice_duration_ms : ℚ) : Option SampleResult :=
  match preprocess_video_sample crop video slice_duration_ms with
  | none => none
  | some (video_samples, video_frame_rate) =>
    match preprocess_audio_pair stftEntry melEntry dbEntry ampFactor speech noise
            slice_duration_ms video_samples.length video_frame_rate false with
    | none => none
    | some pr =>
      let n_slices := min video_samples.length pr.mixed_spectrograms.length
      some ⟨video_samples.take n_slices,
            pr.mixed_spectrograms.take n_slices,
            pr.speech_spectrograms.take n_slices,
            pr.noise_spectrograms.take n_slices,
            pr.original_mixed, pr.peak, video_frame_rate⟩

/-- Embedding of `try_preprocess_sample` (source lines 128-134): loading
the three files is external I/O, modelled by the loader oracles; any
exception (modelled `none`) anywhere in the per-sample pipeline is caught
and becomes the sentinel `none`.  The source calls `preprocess_sample`
with its default `slice_duration_ms=200`. -/
def try_preprocess_sample {V A : Type} (crop : Frame → Frame)
    (stftEntry melEntry : List ℚ → ℕ → ℕ → ℕ → ℕ → ℚ)
    (dbEntry : Mat → ℕ → ℕ → ℚ) (ampFactor : AudioSignal → AudioSignal → ℚ)
    (loadVideo : V → Option VideoInput) (loadAudio : A → Option AudioSignal)
    (sample : V × A × A) : Option SampleResult :=
  match loadVideo sample.1, loadAudio sample.2.1, loadAudio sample.2.2 with
  | some video, some speech, some noise =>
    preprocess_sample crop stftEntry melEntry dbEntry ampFactor video speech noise 200
  | _, _, _ => none

/-- Python `zip` over three lists: pairs up to the shortest list,
silently discarding the overhang of longer lists. -/
def zip3 {V A B : Type} (a : List V) (b : List A) (c : List B) : List (V × A × B) :=
  a.zip (b.zip c)

/-- The dimensions of a spectrogram slice other than the slice
(concatenation) axis: its row and column counts. -/
def mat_shape (m : Mat) : ℕ × ℕ := (m.rows, m.cols)

/-- All slices of all per-sample arrays share one off-axis shape: the
condition under which `np.concatenate` accepts a non-empty list of the
pipeline's slice stacks. -/
def uniform_shapes {α σ : Type} (shape : α → σ) (xs : List (List α)) : Prop :=
  ∀ a ∈ xs.flatten, ∀ b ∈ xs.flatten, shape a = shape b

/-- Modelled from numpy: `np.concatenate` along axis 0 (source lines
152-155).  It raises `ValueError` when the list of arrays is empty, and
also when the arrays disagree on a dimension other than the
concatenation axis.  In this embedding an array is a list of slices and
`shape` gives a slice's off-axis dimensions — the frames-per-slice
length for video stacks (the 128x128 crop size is constant by the face
detector contract) and the (rows, cols) pair for spectrogram stacks;
the per-sample stacks produced by `np.stack` are internally uniform, so
the check compares the slices of all arrays against the first slice. -/
def np_concatenate {α σ : Type} [DecidableEq σ] (shape : α → σ)
    (xs : List (List α)) : Option (List α) :=
  if xs.isEmpty then none
  else
    match xs.flatten with
    | [] => some []
    | a :: rest => if rest.all (fun b => shape b = shape a) then some (a :: rest) else none

/-- Embedding of `preprocess_data` (source lines 137-156).  The pool map
over samples is order-preserving (`Pool.map`), so it is a list map;
failed samples (`None`) are filtered out, and the four surviving streams
are concatenated along the slice axis by `np_concatenate`, which raises
when nothing survives or when the surviving samples' slice arrays have
mismatched off-axis shapes. -/
def preprocess_data {V A : Type} (crop : Frame → Frame)
    (stftEntry melEntry : List ℚ → ℕ → ℕ → ℕ → ℕ → ℚ)
    (dbEntry : Mat → ℕ → ℕ → ℚ) (ampFactor : AudioSignal → AudioSignal → ℚ)
    (loadVideo : V → Option VideoInput) (loadAudio : A → Option AudioSignal)
    (video_file_paths : List V) (speech_file_paths noise_file_paths : List A) :
    Option (List (List Frame) × List Mat × List Mat × List Mat) :=
  let samples := zip3 video_file_paths speech_file_paths noise_file_paths
  let preprocessed := samples.filterMap
    (try_preprocess_sample crop stftEntry melEntry dbEntry ampFactor loadVideo loadAudio)
  (np_concatenate List.length (preprocessed.map SampleResult.video_samples)).bind fun video =>
  (np_concatenate mat_shape (preprocessed.map SampleResult.mixed_spectrograms)).bind fun mixed =>
  (np_concatenate mat_shape (preprocessed.map SampleResult.speech_spectrograms)).bind fun speech =>
  (np_concatenate mat_shape (preprocessed.map SampleResult.noise_spectrograms)).map fun noise =>
  (video, mixed, speech, noise)

namespace VideoNormalizer

/-- Source line 163: the per-pixel mean image of `VideoNormalizer`,
averaging over the sample axis and the intra-slice frame axis
(`np.mean(video_samples, axis=(0, 3))`).  The corpus is a function of
(sample, row, column, frame); `S` and `F` are the extents of axes 0 and
3. -/
noncomputable def mean_image (S F : ℕ) (v : ℕ → ℕ → ℕ → ℕ → ℝ) (i j : ℕ) : ℝ :=
  (∑ s ∈ Finset.range S, ∑ f ∈ Finset.range F, v s i j f) / ((S * F : ℕ) : ℝ)

/-- Source line 164: the per-pixel standard-deviation image
(`np.std(video_samples, axis=(0, 3))`, population standard deviation). -/
noncomputable def std_image (S F : ℕ) (v : ℕ → ℕ → ℕ → ℕ → ℝ) (i j : ℕ) : ℝ :=
  Real.sqrt ((∑ s ∈ Finset.range S, ∑ f ∈ Finset.range F,
    (v s i j f - mean_image S F v i j) ^ 2) / ((S * F : ℕ) : ℝ))

/-- Source lines 166-170: `normalize` subtracts the mean image and then
divides by the std image for every sample and frame, with no zero
guard.  The value written at position (s, i, j, f) of the normalized
volume `u` is given here. -/
noncomputable def normalize (S F : ℕ) (v u : ℕ → ℕ → ℕ → ℕ → ℝ)
    (s i j f : ℕ) : ℝ :=
  (u s i j f - mean_image S F v i j) / std_image S F v i j

end VideoNormalizer

/-- Concrete mouth-crop oracle for witnesses: the identity crop. -/
def crop0 : Frame → Frame := fun fr => fr

/-- Concrete all-zero frame for witnesses. -/
def f0 : Frame := fun _ _ => 0

/-- Concrete STFT magnitude oracle for witnesses. -/
def stft0 : List ℚ → ℕ → ℕ → ℕ → ℕ → ℚ := fun _ _ _ _ _ => 0

/-- Concrete mel-spectrogram oracle for witnesses. -/
def mel0 : List ℚ → ℕ → ℕ → ℕ → ℕ → ℚ := fun _ _ _ _ _ => 0

/-- Concrete amplitude-to-dB oracle for witnesses. -/
def db0 : Mat → ℕ → ℕ → ℚ := fun m i j => m.entry i j

/-- Concrete amplification-factor oracle for witnesses: unit gain. -/
def amp0 : AudioSignal → AudioSignal → ℚ := fun _ _ => 1

/-- Concrete two-frame 10 fps video for witnesses. -/
def video0 : VideoInput := ⟨[f0, f0], 10⟩

/-- Concrete two-sample 40 Hz speech waveform for witnesses. -/
def speech0 : AudioSignal := ⟨[1, 2], 40⟩

/-- Concrete one-sample 40 Hz noise waveform for witnesses. -/
def noise0 : AudioSignal := ⟨[1], 40⟩

/-- Concrete video loader for witnesses. -/
def loadV0 : ℕ → Option VideoInput := fun _ => some video0

/-- Concrete audio loader for witnesses. -/
def loadA0 : ℕ → Option AudioSignal := fun _ => some speech0

/-- Concrete four-frame 20 fps video: processed together with `video0`
(10 fps) it yields video slices of a different frames-per-slice length
and spectrogram slices of different shapes. -/
def video1 : VideoInput := ⟨[f0, f0, f0, f0], 20⟩

/-- Concrete two-sample 160 Hz speech waveform for the shape-mismatch
batch. -/
def speech1 : AudioSignal := ⟨[1, 2], 160⟩

/-- Concrete video loader returning videos of two different frame
rates. -/
def loadV1 : ℕ → Option VideoInput := fun p => if p = 0 then some video0 else some video1

/-- Concrete audio loader for the shape-mismatch batch. -/
def loadA1 : ℕ → Option AudioSignal := fun _ => some speech1

/-! ## Helper lemmas -/

theorem pyInt_toNat_of_nonneg (q : ℚ) (hq : 0 ≤ q) : ((pyInt q).toNat : ℤ) = ⌊q⌋ := by
  rw [pyInt, if_pos hq, Int.toNat_of_nonneg (Int.floor_nonneg.mpr hq)]

theorem force_signal_length_data_length (s : AudioSignal) (target : ℕ) :
    (force_signal_length s target).data.length = target := by
  unfold force_signal_length pad_with_zeros truncate
  by_cases h : s.data.length < target
  · simp only [if_pos h, List.length_append, List.length_replicate]
    omega
  · simp only [if_neg h, List.length_take]
    omega

theorem force_signal_length_sampleRate (s : AudioSignal) (target : ℕ) :
    (force_signal_length s target).sampleRate = s.sampleRate := by
  unfold force_signal_length pad_with_zeros truncate
  by_cases h : s.data.length < target
  · simp [h]
  · simp [h]

theorem trim_odd_row_cols (m : Mat) : (trim_odd_row m).cols = m.cols := by
  unfold trim_odd_row
  split <;> rfl

theorem repeatList_succ (l : List ℚ) (k : ℕ) :
    repeatList l (k + 1) = l ++ repeatList l k := by
  simp [repeatList, List.replicate_succ]

theorem repeatList_length (l : List ℚ) (k : ℕ) :
    (repeatList l k).length = k * l.length := by
  induction k with
  | zero => simp [repeatList]
  | succ n ih =>
    rw [repeatList_succ, List.length_append, ih]
    ring

theorem repeatList_append_self (l : List ℚ) (k : ℕ) :
    repeatList (l ++ l) k = repeatList l (2 * k) := by
  induction k with
  | zero => rfl
  | succ n ih =>
    rw [show 2 * (n + 1) = 2 * n + 1 + 1 from by ring, repeatList_succ, ih,
      repeatList_succ, repeatList_succ, List.append_assoc]

theorem repeatList_getD (l : List ℚ) :
    ∀ (k i : ℕ), i < k * l.length →
      (repeatList l k).getD i 0 = l.getD (i % l.length) 0 := by
  intro k
  induction k with
  | zero => intro i hi; omega
  | succ n ih =>
    intro i hi
    rw [repeatList_succ]
    by_cases hil : i < l.length
    · rw [List.getD_append _ _ _ _ hil, Nat.mod_eq_of_lt hil]
    · push_neg at hil
      rw [List.getD_append_right _ _ _ _ hil, ih (i - l.length) (by
        have hexp : (n + 1) * l.length = n * l.length + l.length := by ring
        omega)]
      congr 1
      conv_rhs => rw [show i = i - l.length + l.length from (Nat.sub_add_cancel hil).symm]
      rw [Nat.add_mod_right]

theorem extend_noise_fuel_nil (fuel target : ℕ) (h : 0 < target) :
    extend_noise_fuel fuel ([] : List ℚ) target = none := by
  induction fuel with
  | zero => rfl
  | succ n ih =>
    simp only [extend_noise_fuel, List.length_nil, h, if_pos, List.nil_append]
    exact ih

theorem extend_noise_fuel_repeat (target : ℕ) :
    ∀ (fuel : ℕ) (noise : List ℚ), 0 < noise.length → target - noise.length < fuel →
      ∃ k, 0 < k ∧ target ≤ k * noise.length ∧
        extend_noise_fuel fuel noise target = some (repeatList noise k) := by
  intro fuel
  induction fuel with
  | zero => intro noise h1 h2; omega
  | succ n ih =>
    intro noise h1 h2
    by_cases hlt : noise.length < target
    · obtain ⟨k, hk, hbound, heq⟩ := ih (noise ++ noise)
        (by simp only [List.length_append]; omega)
        (by simp only [List.length_append]; omega)
      refine ⟨2 * k, by omega, ?_, ?_⟩
      · calc target ≤ k * (noise ++ noise).length := hbound
        _ = 2 * k * noise.length := by simp only [List.length_append]; ring
      · simp only [extend_noise_fuel, if_pos hlt]
        rw [heq, repeatList_append_self]
    · refine ⟨1, one_pos, by omega, ?_⟩
      simp only [extend_noise_fuel, if_neg hlt]
      simp [repeatList]

theorem peak_normalize_sampleRate (s : AudioSignal) (p : ℚ) :
    (peak_normalize s p).sampleRate = s.sampleRate := rfl

theorem amplify_sampleRate (f : AudioSignal → AudioSignal → ℚ) (a b : AudioSignal) :
    (amplify f a b).sampleRate = a.sampleRate := rfl

theorem truncate_sampleRate (s : AudioSignal) (n : ℕ) :
    (truncate s n).sampleRate = s.sampleRate := rfl

theorem mix_signals_rates {a b m : AudioSignal} (h : mix_signals a b = some m) :
    b.sampleRate = a.sampleRate ∧ m.sampleRate = a.sampleRate := by
  unfold mix_signals at h
  split at h
  · injection h with h2
    constructor
    · next hr => exact hr.symm
    · rw [← h2]
  · exact Option.noConfusion h

theorem preprocess_video_sample_frameRate (crop : Frame → Frame) (video : VideoInput)
    (d : ℚ) {vs : List (List Frame)} {fr : ℚ}
    (h : preprocess_video_sample crop video d = some (vs, fr)) : fr = video.frameRate := by
  simp only [preprocess_video_sample] at h
  split at h
  · exact Option.noConfusion h
  · split at h
    · exact Option.noConfusion h
    · injection h with h2
      exact ((Prod.mk.injEq _ _ _ _).mp h2).2.symm

theorem preprocess_audio_signal_props (stftEntry melEntry : List ℚ → ℕ → ℕ → ℕ → ℕ → ℚ)
    (dbEntry : Mat → ℕ → ℕ → ℚ) (a : AudioSignal) (d : ℚ) (n : ℕ) (vfr : ℚ)
    {l : List Mat}
    (h : preprocess_audio_signal stftEntry melEntry dbEntry a d n vfr false = some l) :
    l.length = audio_slice_count a.sampleRate d n vfr ∧
    ∀ m ∈ l, m.rows = linear_spectrogram_rows a.sampleRate vfr := by
  unfold preprocess_audio_signal at h
  simp only [Bool.false_eq_true, if_false] at h
  split at h
  · exact Option.noConfusion h
  · split at h
    · exact Option.noConfusion h
    · split at h
      · exact Option.noConfusion h
      · injection h with h2
        subst h2
        constructor
        · simp only [List.length_map, List.length_range, audio_slice_count,
            trim_odd_row_cols, amplitude_to_db, stft_mag,
            force_signal_length_data_length, force_signal_length_sampleRate]
        · intro m hm
          obtain ⟨i, hi, rfl⟩ := List.mem_map.mp hm
          simp only [spectrogram_slice, amplitude_to_db, stft_mag,
            linear_spectrogram_rows, force_signal_length_sampleRate,
            trim_odd_row, apply_ite Mat.rows]

theorem preprocess_audio_pair_props
    (stftEntry melEntry : List ℚ → ℕ → ℕ → ℕ → ℕ → ℚ)
    (dbEntry : Mat → ℕ → ℕ → ℚ) (ampFactor : AudioSignal → AudioSignal → ℚ)
    (speech noise : AudioSignal) (d : ℚ) (n : ℕ) (vfr : ℚ) {pr : AudioPairResult}
    (hp : preprocess_audio_pair stftEntry melEntry dbEntry ampFactor
      speech noise d n vfr false = some pr) :
    (pr.mixed_spectrograms.length = audio_slice_count speech.sampleRate d n vfr ∧
     pr.speech_spectrograms.length = audio_slice_count speech.sampleRate d n vfr ∧
     pr.noise_spectrograms.length = audio_slice_count speech.sampleRate d n vfr) ∧
    ((∀ m ∈ pr.mixed_spectrograms, m.rows = linear_spectrogram_rows speech.sampleRate vfr) ∧
     (∀ m ∈ pr.speech_spectrograms, m.rows = linear_spectrogram_rows speech.sampleRate vfr) ∧
     (∀ m ∈ pr.noise_spectrograms, m.rows = linear_spectrogram_rows speech.sampleRate vfr)) := by
  simp only [preprocess_audio_pair] at hp
  split at hp
  · exact Option.noConfusion hp
  · split at hp
    · exact Option.noConfusion hp
    · rename_i mixed hmix
      split at hp
      · rename_i ss ns ms hS hN hM
        injection hp with hp2
        subst hp2
        obtain ⟨hrate_noise, hrate_mixed⟩ := mix_signals_rates hmix
        obtain ⟨hlenS, hrowS⟩ := preprocess_audio_signal_props _ _ _ _ _ _ _ hS
        obtain ⟨hlenN, hrowN⟩ := preprocess_audio_signal_props _ _ _ _ _ _ _ hN
        obtain ⟨hlenM, hrowM⟩ := preprocess_audio_signal_props _ _ _ _ _ _ _ hM
        rw [peak_normalize_sampleRate] at hlenS hrowS hlenM hrowM
        rw [amplify_sampleRate, truncate_sampleRate] at hlenN hrowN
        refine ⟨⟨?_, ?_, ?_⟩, ?_, ?_, ?_⟩
        · rw [hlenM, hrate_mixed]
        · exact hlenS
        · rw [hlenN]
          have : noise.sampleRate = speech.sampleRate := by
            rw [← hrate_noise, amplify_sampleRate, truncate_sampleRate]
          rw [this]
        · intro m hm
          rw [hrowM m hm, hrate_mixed]
        · exact hrowS
        · intro m hm
          rw [hrowN m hm]
          have : noise.sampleRate = speech.sampleRate := by
            rw [← hrate_noise, amplify_sampleRate, truncate_sampleRate]
          rw [this]
      · exact Option.noConfusion hp

theorem np_concatenate_none_iff {α σ : Type} [DecidableEq σ] (shape : α → σ)
    (xs : List (List α)) :
    np_concatenate shape xs = none ↔ xs = [] ∨ ¬ uniform_shapes shape xs := by
  rcases xs with _ | ⟨x, xt⟩
  · simp [np_concatenate, uniform_shapes]
  · simp only [np_concatenate, List.isEmpty_cons, Bool.false_eq_true, if_false]
    rcases hf : (x :: xt).flatten with _ | ⟨a, rest⟩
    · simp only [hf]
      constructor
      · intro hc
        exact Option.noConfusion hc
      · rintro (hc | hc)
        · exact List.noConfusion hc
        · exact absurd (fun p hp q hq => by rw [hf] at hp; exact absurd hp (by simp)) hc
    · simp only [hf]
      split
      · rename_i hall
        simp only [List.all_eq_true, decide_eq_true_eq] at hall
        constructor
        · intro hc
          exact Option.noConfusion hc
        · rintro (hc | hc)
          · exact List.noConfusion hc
          · refine absurd (fun p hp q hq => ?_) hc
            rw [hf] at hp hq
            have hpa : shape p = shape a := by
              rcases List.mem_cons.mp hp with h | h
              · rw [h]
              · exact hall p h
            have hqa : shape q = shape a := by
              rcases List.mem_cons.mp hq with h | h
              · rw [h]
              · exact hall q h
            rw [hpa, hqa]
      · rename_i hall
        simp only [List.all_eq_true, decide_eq_true_eq] at hall
        push_neg at hall
        obtain ⟨b, hb, hne⟩ := hall
        constructor
        · intro _
          right
          intro hu
          exact hne (hu b (by rw [hf]; exact List.mem_cons_of_mem a hb)
            a (by rw [hf]; exact List.mem_cons_self a rest))
        · intro _
          rfl

theorem concat_streams_none_iff (pres : List SampleResult) :
    ((np_concatenate List.length (pres.map SampleResult.video_samples)).bind fun video =>
     (np_concatenate mat_shape (pres.map SampleResult.mixed_spectrograms)).bind fun mixed =>
     (np_concatenate mat_shape (pres.map SampleResult.speech_spectrograms)).bind fun speech =>
     (np_concatenate mat_shape (pres.map SampleResult.noise_spectrograms)).map fun noise =>
     (video, mixed, speech, noise)) = none ↔
    (pres = [] ∨
     ¬ uniform_shapes List.length (pres.map SampleResult.video_samples) ∨
     ¬ uniform_shapes mat_shape (pres.map SampleResult.mixed_spectrograms) ∨
     ¬ uniform_shapes mat_shape (pres.map SampleResult.speech_spectrograms) ∨
     ¬ uniform_shapes mat_shape (pres.map SampleResult.noise_spectrograms)) := by
  rcases e1 : np_concatenate List.length (pres.map SampleResult.video_samples) with _ | c1
  · have h1 := (np_concatenate_none_iff _ _).mp e1
    rw [List.map_eq_nil_iff] at h1
    simp only [Option.none_bind]
    rcases h1 with h | h
    · exact iff_of_true trivial (Or.inl h)
    · exact iff_of_true trivial (Or.inr (Or.inl h))
  · have hu1 : uniform_shapes List.length (pres.map SampleResult.video_samples) := by
      by_contra hnu
      rw [(np_concatenate_none_iff _ _).mpr (Or.inr hnu)] at e1
      exact Option.noConfusion e1
    have hne : pres ≠ [] := by
      intro h
      subst h
      simp [np_concatenate] at e1
    simp only [Option.some_bind]
    rcases e2 : np_concatenate mat_shape (pres.map SampleResult.mixed_spectrograms) with _ | c2
    · have h2 := ((np_concatenate_none_iff _ _).mp e2).resolve_left
        (by simp [List.map_eq_nil_iff, hne])
      rw [Option.none_bind]
      exact iff_of_true rfl (Or.inr (Or.inr (Or.inl h2)))
    · have hu2 : uniform_shapes mat_shape (pres.map SampleResult.mixed_spectrograms) := by
        by_contra hnu
        rw [(np_concatenate_none_iff _ _).mpr (Or.inr hnu)] at e2
        exact Option.noConfusion e2
      rw [Option.some_bind]
      rcases e3 : np_concatenate mat_shape (pres.map SampleResult.speech_spectrograms) with _ | c3
      · have h3 := ((np_concatenate_none_iff _ _).mp e3).resolve_left
          (by simp [List.map_eq_nil_iff, hne])
        rw [Option.none_bind]
        exact iff_of_true rfl (Or.inr (Or.inr (Or.inr (Or.inl h3))))
      · have hu3 : uniform_shapes mat_shape (pres.map SampleResult.speech_spectrograms) := by
          by_contra hnu
          rw [(np_concatenate_none_iff _ _).mpr (Or.inr hnu)] at e3
          exact Option.noConfusion e3
        rw [Option.some_bind]
        rcases e4 : np_concatenate mat_shape (pres.map SampleResult.noise_spectrograms) with _ | c4
        · have h4 := ((np_concatenate_none_iff _ _).mp e4).resolve_left
            (by simp [List.map_eq_nil_iff, hne])
          rw [Option.map_none']
          exact iff_of_true rfl (Or.inr (Or.inr (Or.inr (Or.inr h4))))
        · have hu4 : uniform_shapes mat_shape (pres.map SampleResult.noise_spectrograms) := by
            by_contra hnu
            rw [(np_concatenate_none_iff _ _).mpr (Or.inr hnu)] at e4
            exact Option.noConfusion e4
          rw [Option.map_some']
          refine iff_of_false (by simp) ?_
          rintro (h | h | h | h | h)
          · exact hne h
          · exact h hu1
          · exact h hu2
          · exact h hu3
          · exact h hu4

/-! ## Claim theorems -/

/-- C1: whenever `preprocess_sample` succeeds, all four returned slice
streams have exactly `n = min(video slice count, mixed-spectrogram slice
count)` slices: each stream is truncated to its first `n` slices and
none ends up shorter or longer than `n`. -/
theorem preprocess_sample_slice_counts (crop : Frame → Frame)
    (stftEntry melEntry : List ℚ → ℕ → ℕ → ℕ → ℕ → ℚ)
    (dbEntry : Mat → ℕ → ℕ → ℚ) (ampFactor : AudioSignal → AudioSignal → ℚ)
    (video : VideoInput) (speech noise : AudioSignal) (d : ℚ)
    {vs : List (List Frame)} {fr : ℚ} {pr : AudioPairResult} {out : SampleResult}
    (hv : preprocess_video_sample crop video d = some (vs, fr))
    (hp : preprocess_audio_pair stftEntry melEntry dbEntry ampFactor speech noise d
      vs.length fr false = some pr)
    (hs : preprocess_sample crop stftEntry melEntry dbEntry ampFactor video speech noise d
      = some out) :
    out.video_samples.length = min vs.length pr.mixed_spectrograms.length ∧
    out.mixed_spectrograms.length = min vs.length pr.mixed_spectrograms.length ∧
    out.speech_spectrograms.length = min vs.length pr.mixed_spectrograms.length ∧
    out.noise_spectrograms.length = min vs.length pr.mixed_spectrograms.length := by
  simp only [preprocess_sample] at hs
  split at hs
  · exact Option.noConfusion hs
  · rename_i vsa fra hveq
    split at hs
    · exact Option.noConfusion hs
    · rename_i pr2 hpeq
      rw [hv] at hveq
      injection hveq with hveq2
      obtain ⟨hv1, hv2⟩ := (Prod.mk.injEq _ _ _ _).mp hveq2
      subst hv1
      subst hv2
      rw [hp] at hpeq
      injection hpeq with hpeq2
      subst hpeq2
      injection hs with hs2
      subst hs2
      obtain ⟨⟨hlM, hlS, hlN⟩, _⟩ :=
        preprocess_audio_pair_props stftEntry melEntry dbEntry ampFactor
          speech noise d vs.length fr hp
      simp only [List.length_take]
      refine ⟨?_, ?_, ?_, ?_⟩ <;> omega

/-- C1 (witness): the theorem applied to a concrete 2-frame 10 fps video
and 40 Hz speech and noise waveforms with `slice_duration_ms = 200`:
every stream of the returned sample has exactly one slice. -/
theorem preprocess_sample_slice_counts_witness :
    (preprocess_sample crop0 stft0 mel0 db0 amp0 video0 speech0 noise0 200).map
        (fun o => (o.video_samples.length, o.mixed_spectrograms.length,
                   o.speech_spectrograms.length, o.noise_spectrograms.length))
      = some (1, 1, 1, 1) := by
  have h := preprocess_sample_slice_counts crop0 stft0 mel0 db0 amp0 video0 speech0 noise0 200
    (by with_unfolding_all rfl) (by with_unfolding_all rfl) (by with_unfolding_all rfl)
  with_unfolding_all decide

/-- C3 (counterexample): the Video Slicer does not round
`slice_duration_ms/1000 * frame_rate` to the nearest integer: at
`slice_duration_ms = 200` and `frame_rate = 24.75` the product is `4.95`,
the source's `int()` truncation yields `4`, while rounding to the nearest
integer yields `5`. -/
theorem frames_per_slice_not_round :
    frames_per_slice 200 (99 / 4) = 4 ∧ round ((200 : ℚ) / 1000 * (99 / 4)) = 5 := by
  constructor
  · with_unfolding_all decide
  · rw [round_eq]
    norm_num

/-- C3 (amended): for nonnegative durations and rates, the time-base
parameters are computed by truncation (floor), not rounding to nearest:
`frames_per_slice = floor(slice_duration_ms/1000 * frame_rate)`,
`samples_per_slice = floor(slice_duration_ms/1000 * sample_rate)`,
`n_fft = floor(sample_rate / video_frame_rate)` and
`hop_length = floor(n_fft / 4)`. -/
theorem time_base_params_floor (d r vfr : ℚ) (sr : ℕ)
    (hd : 0 ≤ d) (hr : 0 ≤ r) (hv : 0 ≤ vfr) :
    (frames_per_slice d r : ℤ) = ⌊d / 1000 * r⌋ ∧
    (samples_per_slice d sr : ℤ) = ⌊d / 1000 * (sr : ℚ)⌋ ∧
    (n_fft_of sr vfr : ℤ) = ⌊(sr : ℚ) / vfr⌋ ∧
    ∀ m : ℕ, hop_length_of m = m / 4 := by
  refine ⟨pyInt_toNat_of_nonneg _ ?_, pyInt_toNat_of_nonneg _ ?_,
    pyInt_toNat_of_nonneg _ ?_, fun m => rfl⟩
  · exact mul_nonneg (div_nonneg hd (by norm_num)) hr
  · exact mul_nonneg (div_nonneg hd (by norm_num)) (Nat.cast_nonneg sr)
  · exact div_nonneg (Nat.cast_nonneg sr) hv

/-- C3 (witness): the amended theorem applied at
`slice_duration_ms = 200`, `frame_rate = 24.75`, `sample_rate = 16000`,
`video_frame_rate = 25`. -/
theorem time_base_params_floor_witness :
    (0 : ℚ) ≤ 200 ∧ (0 : ℚ) ≤ 99 / 4 ∧ (0 : ℚ) ≤ 25 ∧
    ((frames_per_slice 200 (99 / 4) : ℤ) = ⌊(200 : ℚ) / 1000 * (99 / 4)⌋ ∧
     (samples_per_slice 200 16000 : ℤ) = ⌊(200 : ℚ) / 1000 * ((16000 : ℕ) : ℚ)⌋ ∧
     (n_fft_of 16000 25 : ℤ) = ⌊((16000 : ℕ) : ℚ) / 25⌋ ∧
     ∀ m : ℕ, hop_length_of m = m / 4) :=
  ⟨by norm_num, by norm_num, by norm_num,
   time_base_params_floor 200 (99 / 4) 25 16000 (by norm_num) (by norm_num) (by norm_num)⟩

/-- C4: after the Audio Slicer's length-forcing step the waveform has
exactly `target_length = samples_per_slice * n_video_slices` samples and
an unchanged sample rate; it is padded with trailing zeros when shorter
than the target and truncated to exactly the target when at least as
long. -/
theorem force_signal_length_spec (s : AudioSignal) (d : ℚ) (n : ℕ) :
    (force_signal_length s (samples_per_slice d s.sampleRate * n)).data.length
        = samples_per_slice d s.sampleRate * n ∧
    (force_signal_length s (samples_per_slice d s.sampleRate * n)).sampleRate
        = s.sampleRate ∧
    (s.data.length < samples_per_slice d s.sampleRate * n →
      (force_signal_length s (samples_per_slice d s.sampleRate * n)).data
        = s.data ++ List.replicate (samples_per_slice d s.sampleRate * n - s.data.length) 0) ∧
    (samples_per_slice d s.sampleRate * n ≤ s.data.length →
      (force_signal_length s (samples_per_slice d s.sampleRate * n)).data
        = s.data.take (samples_per_slice d s.sampleRate * n)) := by
  refine ⟨force_signal_length_data_length s _, force_signal_length_sampleRate s _, ?_, ?_⟩
  · intro h
    unfold force_signal_length pad_with_zeros
    rw [if_pos h]
  · intro h
    unfold force_signal_length truncate
    rw [if_neg (Nat.not_lt.mpr h)]

/-- C4 (witness): the theorem applied to a 1-sample and a 9-sample
waveform at 40 Hz with `slice_duration_ms = 200` and one video slice
(target length 8): the short one is zero-padded to 8 samples, the long
one truncated to 8 samples. -/
theorem force_signal_length_spec_witness :
    (AudioSignal.mk [1] 40).data.length
        < samples_per_slice 200 (AudioSignal.mk [1] 40).sampleRate * 1 ∧
    (force_signal_length (AudioSignal.mk [1] 40)
        (samples_per_slice 200 (AudioSignal.mk [1] 40).sampleRate * 1)).data
      = [1, 0, 0, 0, 0, 0, 0, 0] ∧
    samples_per_slice 200 (AudioSignal.mk [1, 1, 1, 1, 1, 1, 1, 1, 1] 40).sampleRate * 1
        ≤ (AudioSignal.mk [1, 1, 1, 1, 1, 1, 1, 1, 1] 40).data.length ∧
    (force_signal_length (AudioSignal.mk [1, 1, 1, 1, 1, 1, 1, 1, 1] 40)
        (samples_per_slice 200 (AudioSignal.mk [1, 1, 1, 1, 1, 1, 1, 1, 1] 40).sampleRate * 1)).data
      = [1, 1, 1, 1, 1, 1, 1, 1] := by
  refine ⟨by with_unfolding_all decide, ?_, by with_unfolding_all decide, ?_⟩
  · exact ((force_signal_length_spec (AudioSignal.mk [1] 40) 200 1).2.2.1
      (by with_unfolding_all decide)).trans (by with_unfolding_all decide)
  · exact ((force_signal_length_spec (AudioSignal.mk [1, 1, 1, 1, 1, 1, 1, 1, 1] 40) 200 1).2.2.2
      (by with_unfolding_all decide)).trans (by with_unfolding_all decide)

/-- C5: for a non-empty noise shorter than the speech, the
extend-then-truncate step of the Audio Pair Mixer produces exactly the
original noise tiled periodically and cut to the speech length: sample
`i` of the result is sample `i mod len(noise)` of the original noise. -/
theorem extend_noise_tiles (noise : List ℚ) (target : ℕ)
    (h1 : 0 < noise.length) (h2 : noise.length < target) :
    (extend_noise noise target).map (fun l => l.take target)
      = some ((List.range target).map fun i => noise.getD (i % noise.length) 0) := by
  obtain ⟨k, hk, hbound, heq⟩ :=
    extend_noise_fuel_repeat target (target + 1) noise h1 (by omega)
  rw [extend_noise, heq, Option.map_some']
  congr 1
  apply List.ext_getElem
  · rw [List.length_take, repeatList_length, List.length_map, List.length_range]
    omega
  · intro i hi1 hi2
    rw [List.getElem_take, List.getElem_map, List.getElem_range,
      ← List.getD_eq_getElem _ 0, repeatList_getD noise k i]
    rw [List.length_take, repeatList_length] at hi1
    omega

/-- C5 (witness): the theorem applied to the noise `[1, 2]` and speech
length 5: the loop doubles `[1, 2]` to `[1, 2, 1, 2, 1, 2, 1, 2]` and
truncation yields the periodic tile `[1, 2, 1, 2, 1]`. -/
theorem extend_noise_tiles_witness :
    0 < ([1, 2] : List ℚ).length ∧ ([1, 2] : List ℚ).length < 5 ∧
    (extend_noise ([1, 2] : List ℚ) 5).map (fun l => l.take 5)
      = some ((List.range 5).map fun i => ([1, 2] : List ℚ).getD (i % ([1, 2] : List ℚ).length) 0) :=
  ⟨by decide, by decide, extend_noise_tiles [1, 2] 5 (by decide) (by decide)⟩

/-- C6: on a zero-length noise and a non-empty speech the noise-extension
loop of `preprocess_audio_pair` makes no progress: doubling the empty
noise leaves it empty, so the loop body runs forever — `extend_noise_fuel`
exhausts every fuel budget (and `extend_noise` reports the divergence).
The code therefore hangs instead of surfacing an error to the caller as
the spec requires. -/
theorem extend_noise_empty_diverges (fuel target : ℕ) (h : 0 < target) :
    extend_noise_fuel fuel ([] : List ℚ) target = none ∧
    extend_noise ([] : List ℚ) target = none :=
  ⟨extend_noise_fuel_nil fuel target h, extend_noise_fuel_nil (target + 1) target h⟩

/-- C6 (witness): the theorem applied at speech length 1 and fuel 7. -/
theorem extend_noise_empty_diverges_witness :
    0 < 1 ∧ extend_noise_fuel 7 ([] : List ℚ) 1 = none ∧
    extend_noise ([] : List ℚ) 1 = none :=
  ⟨by decide, (extend_noise_empty_diverges 7 1 (by decide)).1,
   (extend_noise_empty_diverges 7 1 (by decide)).2⟩

/-- C7 (counterexample): mismatched path-list lengths are not an error:
with two video paths but only one speech and one noise path, and a first
triple that preprocesses successfully, `preprocess_data` returns a result
instead of raising — Python's `zip` silently truncates to the shortest
list. -/
theorem preprocess_data_mismatched_lengths_ok :
    (preprocess_data crop0 stft0 mel0 db0 amp0 loadV0 loadA0 [0, 1] [0] [0]).isSome = true ∧
    ¬ ([0, 1] : List ℕ).length = ([0] : List ℕ).length := by
  with_unfolding_all decide

/-- C7 (amended): the Batch Orchestrator never raises because of a
per-sample failure — each failing sample is dropped by the `filterMap` —
and it raises exactly when `np.concatenate` cannot combine what
survives: either the batch yields zero usable samples, or the surviving
samples' slice arrays disagree on a dimension other than the
concatenation axis (frames per video slice, or spectrogram rows and
columns, as arise from differing frame or sample rates); mismatched
path-list lengths are not an error but are silently truncated to the
shortest list by `zip`. -/
theorem preprocess_data_none_iff {V A : Type} (crop : Frame → Frame)
    (stftEntry melEntry : List ℚ → ℕ → ℕ → ℕ → ℕ → ℚ)
    (dbEntry : Mat → ℕ → ℕ → ℚ) (ampFactor : AudioSignal → AudioSignal → ℚ)
    (loadVideo : V → Option VideoInput) (loadAudio : A → Option AudioSignal)
    (v : List V) (s n : List A) :
    preprocess_data crop stftEntry melEntry dbEntry ampFactor loadVideo loadAudio v s n
        = none ↔
      ((zip3 v s n).filterMap
          (try_preprocess_sample crop stftEntry melEntry dbEntry ampFactor loadVideo loadAudio)
          = [] ∨
       ¬ uniform_shapes List.length
          (((zip3 v s n).filterMap
              (try_preprocess_sample crop stftEntry melEntry dbEntry ampFactor loadVideo loadAudio)).map
            SampleResult.video_samples) ∨
       ¬ uniform_shapes mat_shape
          (((zip3 v s n).filterMap
              (try_preprocess_sample crop stftEntry melEntry dbEntry ampFactor loadVideo loadAudio)).map
            SampleResult.mixed_spectrograms) ∨
       ¬ uniform_shapes mat_shape
          (((zip3 v s n).filterMap
              (try_preprocess_sample crop stftEntry melEntry dbEntry ampFactor loadVideo loadAudio)).map
            SampleResult.speech_spectrograms) ∨
       ¬ uniform_shapes mat_shape
          (((zip3 v s n).filterMap
              (try_preprocess_sample crop stftEntry melEntry dbEntry ampFactor loadVideo loadAudio)).map
            SampleResult.noise_spectrograms)) := by
  simp only [preprocess_data]
  exact concat_streams_none_iff _

/-- Demonstration that the shape-mismatch arm of the amended C7 claim is
reachable: a batch of two triples that both preprocess successfully —
one 10 fps video, one 20 fps video, same 160 Hz audio — produces two
surviving samples whose video slices have different frames-per-slice
lengths (2 versus 4) and whose spectrogram slices have different shapes,
so `np.concatenate` raises and `preprocess_data` reports the error even
though no per-sample failure occurred. -/
theorem preprocess_data_shape_mismatch_raises :
    preprocess_data crop0 stft0 mel0 db0 amp0 loadV1 loadA1 [0, 1] [0, 1] [0, 1] = none ∧
    ((zip3 [0, 1] [0, 1] [0, 1]).filterMap
        (try_preprocess_sample crop0 stft0 mel0 db0 amp0 loadV1 loadA1)).length = 2 := by
  constructor
  · exact Option.isNone_iff_eq_none.mp (by with_unfolding_all decide)
  · with_unfolding_all decide

/-- C8: the `original_mixed` signal returned by the Audio Pair Mixer is,
sample for sample, the mixed signal as it was before peak normalization
(the signal produced by `mix_signals`), with the same sample rate, and
the recorded peak is that signal's peak: the subsequent peak
normalization of the mixed and speech signals does not touch the
retained copy. -/
theorem preprocess_audio_pair_retains_original_mixed
    (stftEntry melEntry : List ℚ → ℕ → ℕ → ℕ → ℕ → ℚ)
    (dbEntry : Mat → ℕ → ℕ → ℚ) (ampFactor : AudioSignal → AudioSignal → ℚ)
    (speech noise : AudioSignal) (d : ℚ) (n : ℕ) (vfr : ℚ) (mel : Bool)
    {extended : List ℚ} {mixed : AudioSignal} {pr : AudioPairResult}
    (hE : extend_noise noise.data speech.data.length = some extended)
    (hM : mix_signals speech
      (amplify ampFactor (truncate ⟨extended, noise.sampleRate⟩ speech.data.length) speech)
      = some mixed)
    (hp : preprocess_audio_pair stftEntry melEntry dbEntry ampFactor speech noise d n vfr mel
      = some pr) :
    pr.original_mixed.data = mixed.data ∧
    pr.original_mixed.sampleRate = mixed.sampleRate ∧
    pr.peak = peakOf mixed := by
  simp only [preprocess_audio_pair] at hp
  split at hp
  · exact Option.noConfusion hp
  · rename_i ext2 hE2
    rw [hE] at hE2
    injection hE2 with hE3
    subst hE3
    split at hp
    · exact Option.noConfusion hp
    · rename_i mixed2 hM2
      rw [hM] at hM2
      injection hM2 with hM3
      subst hM3
      split at hp
      · injection hp with hp2
        subst hp2
        exact ⟨rfl, rfl, rfl⟩
      · exact Option.noConfusion hp

/-- C8 (witness): the theorem applied to the concrete speech `[1, 2]` and
noise `[1]` at 40 Hz: the pre-normalization mix is `[2, 3]` with peak 3,
and that is exactly the retained `original_mixed` and peak. -/
theorem preprocess_audio_pair_retains_original_mixed_witness :
    (preprocess_audio_pair stft0 mel0 db0 amp0 speech0 noise0 200 1 10 false).map
        (fun pr => (pr.original_mixed.data, pr.original_mixed.sampleRate, pr.peak))
      = some ([2, 3], 40, 3) := by
  have h := preprocess_audio_pair_retains_original_mixed stft0 mel0 db0 amp0 speech0 noise0
    200 1 10 false (by with_unfolding_all rfl) (by with_unfolding_all rfl)
    (by with_unfolding_all rfl)
  with_unfolding_all decide

/-- C10: whenever `preprocess_sample` succeeds, every slice of each of
the three returned spectrogram streams comes from the linear (non-mel)
magnitude-in-dB path — `preprocess_sample` invokes the audio pipeline
with `mel=False`, overriding the `mel=True` default — so each slice has
the post-trim linear row count, which is even (an odd last frequency bin
having been dropped). -/
theorem preprocess_sample_linear_even_bins (crop : Frame → Frame)
    (stftEntry melEntry : List ℚ → ℕ → ℕ → ℕ → ℕ → ℚ)
    (dbEntry : Mat → ℕ → ℕ → ℚ) (ampFactor : AudioSignal → AudioSignal → ℚ)
    (video : VideoInput) (speech noise : AudioSignal) (d : ℚ) {out : SampleResult}
    (hs : preprocess_sample crop stftEntry melEntry dbEntry ampFactor video speech noise d
      = some out) :
    (∀ m ∈ out.mixed_spectrograms,
      m.rows = linear_spectrogram_rows speech.sampleRate video.frameRate) ∧
    (∀ m ∈ out.speech_spectrograms,
      m.rows = linear_spectrogram_rows speech.sampleRate video.frameRate) ∧
    (∀ m ∈ out.noise_spectrograms,
      m.rows = linear_spectrogram_rows speech.sampleRate video.frameRate) ∧
    linear_spectrogram_rows speech.sampleRate video.frameRate % 2 = 0 := by
  simp only [preprocess_sample] at hs
  split at hs
  · exact Option.noConfusion hs
  · rename_i vsa fra hveq
    split at hs
    · exact Option.noConfusion hs
    · rename_i pr2 hpeq
      have hfr : fra = video.frameRate := preprocess_video_sample_frameRate _ _ _ hveq
      subst hfr
      injection hs with hs2
      subst hs2
      obtain ⟨-, hrM, hrS, hrN⟩ :=
        preprocess_audio_pair_props stftEntry melEntry dbEntry ampFactor
          speech noise d vsa.length video.frameRate hpeq
      refine ⟨?_, ?_, ?_, ?_⟩
      · intro m hm
        exact hrM m (List.take_subset _ _ hm)
      · intro m hm
        exact hrS m (List.take_subset _ _ hm)
      · intro m hm
        exact hrN m (List.take_subset _ _ hm)
      · simp only [linear_spectrogram_rows]
        split <;> omega

/-- C10 (witness): the theorem applied to the concrete sample of the C1
scenario: every slice of the three spectrogram streams has 2 rows (the
linear path gives `n_fft/2 + 1 = 3` bins, trimmed to 2; the mel path
would give 80), and 2 is even. -/
theorem preprocess_sample_linear_even_bins_witness :
    (preprocess_sample crop0 stft0 mel0 db0 amp0 video0 speech0 noise0 200).map
        (fun o => (o.mixed_spectrograms.map Mat.rows, o.speech_spectrograms.map Mat.rows,
                   o.noise_spectrograms.map Mat.rows))
      = some ([2], [2], [2]) ∧
    linear_spectrogram_rows speech0.sampleRate video0.frameRate % 2 = 0 := by
  have h := preprocess_sample_linear_even_bins crop0 stft0 mel0 db0 amp0 video0 speech0
    noise0 200 (by with_unfolding_all rfl)
  exact ⟨by with_unfolding_all decide, h.2.2.2⟩

/-- C9 (counterexample): `VideoNormalizer.normalize` guards nothing: on a
corpus whose single pixel is constant, the std image is exactly 0 and
normalizing a volume whose value differs from the mean by 1 writes the
unguarded division-by-zero value (0 in this real-number embedding, NaN
or Inf under IEEE floats) — not an epsilon-floored quotient, which would
be nonzero, and not a raised error. -/
theorem video_normalizer_zero_std_counterexample :
    VideoNormalizer.std_image 1 1 (fun _ _ _ _ => (0 : ℝ)) 0 0 = 0 ∧
    VideoNormalizer.normalize 1 1 (fun _ _ _ _ => (0 : ℝ)) (fun _ _ _ _ => (1 : ℝ)) 0 0 0 0
      = 0 ∧
    (1 : ℝ) - VideoNormalizer.mean_image 1 1 (fun _ _ _ _ => (0 : ℝ)) 0 0 = 1 := by
  have hm : VideoNormalizer.mean_image 1 1 (fun _ _ _ _ => (0 : ℝ)) 0 0 = 0 := by
    simp [VideoNormalizer.mean_image]
  have hs : VideoNormalizer.std_image 1 1 (fun _ _ _ _ => (0 : ℝ)) 0 0 = 0 := by
    simp [VideoNormalizer.std_image, hm]
  refine ⟨hs, ?_, by rw [hm]; ring⟩
  rw [VideoNormalizer.normalize, hs, div_zero]

/-- C9 (amended): `normalize` divides by the per-pixel std with no
epsilon floor and no error check: at any pixel with zero variance across
the fitted corpus the std image is exactly 0, and the value `normalize`
writes there is the unguarded division of `value - mean` by zero (0 in
this real-number embedding, silently NaN or Inf under IEEE floats),
irrespective of the input value. -/
theorem video_normalizer_zero_variance_unguarded (S F : ℕ) (v : ℕ → ℕ → ℕ → ℕ → ℝ)
    (i j : ℕ) (c : ℝ) (hS : 0 < S) (hF : 0 < F)
    (hc : ∀ s ∈ Finset.range S, ∀ f ∈ Finset.range F, v s i j f = c) :
    VideoNormalizer.std_image S F v i j = 0 ∧
    ∀ (u : ℕ → ℕ → ℕ → ℕ → ℝ) (s f : ℕ),
      VideoNormalizer.normalize S F v u s i j f = 0 := by
  have hS0 : (S : ℝ) ≠ 0 := Nat.cast_ne_zero.mpr hS.ne'
  have hF0 : (F : ℝ) ≠ 0 := Nat.cast_ne_zero.mpr hF.ne'
  have hmean : VideoNormalizer.mean_image S F v i j = c := by
    rw [VideoNormalizer.mean_image,
      Finset.sum_congr rfl fun s hsm => Finset.sum_congr rfl fun f hfm => hc s hsm f hfm]
    simp only [Finset.sum_const, Finset.card_range, nsmul_eq_mul]
    push_cast
    field_simp
    ring
  have hstd : VideoNormalizer.std_image S F v i j = 0 := by
    rw [VideoNormalizer.std_image,
      Finset.sum_congr rfl fun s hsm => Finset.sum_congr rfl fun f hfm =>
        show (v s i j f - VideoNormalizer.mean_image S F v i j) ^ 2 = 0 by
          rw [hc s hsm f hfm, hmean, sub_self]
          ring]
    simp
  exact ⟨hstd, fun u s f => by rw [VideoNormalizer.normalize, hstd, div_zero]⟩

/-- C9 (witness): the amended theorem applied to the constant corpus
`v = 3` at the single pixel of a 1-sample, 1-frame volume: the std image
is 0 there, and normalizing a volume with value 7 writes 0 — the
division by the zero std went through unguarded. -/
theorem video_normalizer_zero_variance_unguarded_witness :
    0 < 1 ∧
    VideoNormalizer.std_image 1 1 (fun _ _ _ _ => (3 : ℝ)) 0 0 = 0 ∧
    VideoNormalizer.normalize 1 1 (fun _ _ _ _ => (3 : ℝ)) (fun _ _ _ _ => (7 : ℝ)) 5 0 0 2
      = 0 := by
  have h := video_normalizer_zero_variance_unguarded 1 1 (fun _ _ _ _ => (3 : ℝ)) 0 0 3
    one_pos one_pos (fun s hsm f hfm => rfl)
  exact ⟨one_pos, h.1, h.2 (fun _ _ _ _ => (7 : ℝ)) 5 2⟩

end AVSE
